import Mathlib

/-!
Verification of the stopwatch-rs library (src/lib.rs, src/tsc.rs) against its
natural-language specification.

The Rust code is shallowly embedded: u64 values are natural numbers, with
wrapping arithmetic written explicitly as `% U64`; operations that can panic
(integer division by zero) return `Except ArithError`.
-/

namespace StopwatchRs

/-- `2^64`, the modulus of Rust `u64` arithmetic. -/
def U64 : Nat := 18446744073709551616

/-- Arithmetic failures: the only one the embedded code can raise is a
division by zero, which in Rust aborts the program (a loud failure). -/
inductive ArithError
  | divByZero
deriving DecidableEq

/-- Rust `u64` division `a / b`: fails loudly when `b = 0`, otherwise
truncating division. -/
def u64div (a b : Nat) : Except ArithError Nat :=
  if b = 0 then .error .divByZero else .ok (a / b)

/-- Rust `u64` wrapping subtraction `a - b` for `a b < U64`
(release-profile two's-complement wraparound). -/
def u64sub (a b : Nat) : Nat :=
  (a + U64 - b) % U64

namespace tsc

/-- `to_ns` from src/tsc.rs: `(dt * 1_000_000_000) / tps`. The product is
`u64` multiplication, hence taken `% U64`; the division fails loudly when
`tps = 0`. -/
def to_ns (dt tps : Nat) : Except ArithError Nat :=
  u64div ((dt * 1000000000) % U64) tps

/-- `to_us` from src/tsc.rs: `to_ns(dt, tps) / 1000`. -/
def to_us (dt tps : Nat) : Except ArithError Nat :=
  to_ns dt tps >>= fun n => u64div n 1000

/-- `to_ms` from src/tsc.rs: `to_us(dt, tps) / 1009`, exactly as the source
is written (the divisor in the source is 1009, not 1000). -/
def to_ms (dt tps : Nat) : Except ArithError Nat :=
  to_us dt tps >>= fun n => u64div n 1009

/-- C1: the code divides microseconds by 1009, so at `dt = 2, tps = 1` the
millisecond conversion yields 1982 while `to_us / 1000` is 2000: the claimed
identity `to_ms x cps = to_us x cps / 1000` fails on the code. -/
theorem to_ms_divides_by_1009 :
    to_us 2 1 = .ok 2000000 ∧
    to_ms 2 1 = .ok 1982 ∧
    (1982 : Nat) ≠ 2000000 / 1000 := by
  refine ⟨rfl, rfl, by decide⟩

/-- C9: conversion with a zero calibration constant fails loudly, in `to_ns`
and hence in `to_us` and `to_ms`; with `cps > 0` the error branch is
unreachable and a result is always produced. -/
theorem to_ns_fail_fast (dt : Nat) :
    to_ns dt 0 = .error .divByZero ∧
    to_us dt 0 = .error .divByZero ∧
    to_ms dt 0 = .error .divByZero ∧
    (∀ tps, 0 < tps → ∃ v, to_ns dt tps = .ok v) := by
  refine ⟨rfl, rfl, rfl, fun tps htps => ?_⟩
  refine ⟨(dt * 1000000000) % U64 / tps, ?_⟩
  simp [to_ns, u64div, Nat.pos_iff_ne_zero.mp htps]

/-- C9 witness at `dt = 5`, `tps = 3`. -/
theorem to_ns_fail_fast_witness :
    to_ns 5 0 = .error .divByZero ∧ ∃ v, to_ns 5 3 = .ok v :=
  ⟨(to_ns_fail_fast 5).1, (to_ns_fail_fast 5).2.2.2 3 (by decide)⟩

/-- C10: `to_ns` multiplies before dividing, computing
`((dt * 10^9) mod 2^64) / tps`; the result equals the mathematical value
`dt * 10^9 / tps` exactly when the product does not wrap,
i.e. when `dt * 10^9 < 2^64`. -/
theorem to_ns_wrapping (dt tps : Nat) (h0 : 0 < tps) (h1 : tps < U64) :
    to_ns dt tps = .ok ((dt * 1000000000) % U64 / tps) ∧
    (to_ns dt tps = .ok (dt * 1000000000 / tps) ↔ dt * 1000000000 < U64) := by
  have hne : tps ≠ 0 := Nat.pos_iff_ne_zero.mp h0
  have heval : to_ns dt tps = .ok ((dt * 1000000000) % U64 / tps) := by
    simp [to_ns, u64div, hne]
  refine ⟨heval, ?_, ?_⟩
  · intro hok
    rw [heval] at hok
    have hq : (dt * 1000000000) % U64 / tps = dt * 1000000000 / tps :=
      Except.ok.inj hok
    by_contra hbig
    push_neg at hbig
    set t := dt * 1000000000 with ht
    have hmod : t % U64 + U64 ≤ t := by
      have hlt : t % U64 < U64 := Nat.mod_lt _ (by decide)
      have hdiv : 1 ≤ t / U64 := (Nat.one_le_div_iff (by decide)).mpr hbig
      have hmul : U64 ≤ U64 * (t / U64) := Nat.le_mul_of_pos_right _ hdiv
      have := Nat.mod_add_div t U64
      omega
    have h2 : t % U64 / tps + U64 / tps ≤ (t % U64 + U64) / tps :=
      Nat.add_div_le_add_div _ _ _
    have h3 : (t % U64 + U64) / tps ≤ t / tps :=
      Nat.div_le_div_right hmod
    have h4 : 1 ≤ U64 / tps := (Nat.one_le_div_iff h0).mpr (Nat.le_of_lt h1)
    omega
  · intro hsmall
    rw [heval, Nat.mod_eq_of_lt hsmall]

/-- C10 witness at `dt = 2`, `tps = 10^9` (no wraparound, result 2 ns). -/
theorem to_ns_wrapping_witness :
    to_ns 2 1000000000 = .ok ((2 * 1000000000) % U64 / 1000000000) ∧
    (to_ns 2 1000000000 = .ok (2 * 1000000000 / 1000000000) ↔
      2 * 1000000000 < U64) :=
  to_ns_wrapping 2 1000000000 (by decide) (by decide)

/-- Rust f64 `round` (round half away from zero), with the f64 arithmetic
modelled exactly over ℚ. -/
def rustRound (q : ℚ) : ℤ :=
  if 0 ≤ q then ⌊q + 1 / 2⌋ else -⌊-q + 1 / 2⌋

/-- `bexp` from src/tsc.rs: `10.0^(x.log10().floor() - (sigdigs - 1.0))`,
with `x.log10().floor()` modelled exactly as `Int.log 10 x`. -/
def bexp (x : ℚ) (sigdigs : ℤ) : ℚ :=
  (10 : ℚ) ^ (Int.log 10 x - (sigdigs - 1))

/-- `sround` from src/tsc.rs: `nearest * (x / nearest).round()`. -/
def sround (x nearest : ℚ) : ℚ :=
  nearest * (rustRound (x / nearest) : ℚ)

/-- `round_keeping_top_sigdigs` from src/tsc.rs; the final `as u64` cast of
the nonnegative result truncates toward zero, i.e. takes the floor. -/
def round_keeping_top_sigdigs (x : Nat) (sigdigs : Nat) : Nat :=
  (⌊sround (x : ℚ) (bexp (x : ℚ) (sigdigs : ℤ))⌋).toNat

/-- `Int.log 10` of a natural number with a known decimal magnitude. -/
theorem intLog10_of_nat {x lg : ℕ} (h1 : 10 ^ lg ≤ x) (h2 : x < 10 ^ (lg + 1)) :
    Int.log 10 ((x : ℕ) : ℚ) = lg := by
  rw [Int.log_natCast, Nat.log_eq_of_pow_le_of_lt_pow h1 h2]

/-- Evaluation scheme for `round_keeping_top_sigdigs x 2` on an eight-digit
input: the cut position is `10^6` and the result is `10^6` times the rounding
of `x / 10^6`. -/
theorem rkts_two_of_eight_digits {x : ℕ} {r : ℤ} (h1 : 10 ^ 7 ≤ x)
    (h2 : x < 10 ^ 8) (hr : ⌊(x : ℚ) / 1000000 + 1 / 2⌋ = r) :
    round_keeping_top_sigdigs x 2 = (1000000 * r).toNat := by
  have hlog : Int.log 10 ((x : ℕ) : ℚ) = 7 := intLog10_of_nat h1 h2
  have hpow : (10 : ℚ) ^ ((7 : ℤ) - (((2 : ℕ) : ℤ) - 1)) = 1000000 := by
    norm_num
  have hpos : (0 : ℚ) ≤ (x : ℚ) / 1000000 := by positivity
  unfold round_keeping_top_sigdigs bexp sround rustRound
  rw [hlog, hpow, if_pos hpos, hr]
  rw [show ((1000000 : ℚ) * (r : ℚ)) = ((1000000 * r : ℤ) : ℚ) by push_cast; ring]
  rw [Int.floor_intCast]

/-- C2: the three spec literals for the two-significant-digit rounding
function, computed with round-half-away-from-zero at the cut digit. -/
theorem round_keeping_top_sigdigs_spec_literals :
    round_keeping_top_sigdigs 10000000 2 = 10000000 ∧
    round_keeping_top_sigdigs 12400000 2 = 12000000 ∧
    round_keeping_top_sigdigs 12600000 2 = 13000000 := by
  refine ⟨?_, ?_, ?_⟩
  · rw [rkts_two_of_eight_digits (r := 10) (by norm_num) (by norm_num) ?_]
    · rfl
    · rw [Int.floor_eq_iff]
      push_cast
      norm_num
  · rw [rkts_two_of_eight_digits (r := 12) (by norm_num) (by norm_num) ?_]
    · rfl
    · rw [Int.floor_eq_iff]
      push_cast
      norm_num
  · rw [rkts_two_of_eight_digits (r := 13) (by norm_num) (by norm_num) ?_]
    · rfl
    · rw [Int.floor_eq_iff]
      push_cast
      norm_num

end tsc

/-- `Stopwatch` from src/lib.rs: total clocked ticks and number of clocked
time windows (the spec's `sample_count`). -/
structure Stopwatch where
  total_time : Nat
  number_of_windows : Nat
deriving DecidableEq

/-- `Stopwatch::new`: both fields zero. -/
def Stopwatch.new : Stopwatch :=
  { total_time := 0, number_of_windows := 0 }

/-- One recorded sample: `total_time += delta; number_of_windows += 1`,
with u64 wrapping. -/
def Stopwatch.record (sw : Stopwatch) (delta : Nat) : Stopwatch :=
  { total_time := (sw.total_time + delta) % U64,
    number_of_windows := (sw.number_of_windows + 1) % U64 }

/-- The log lines `Stopwatch::print` can emit. -/
inductive LogLine
  | neverRan (name : String)
  | stats (name : String) (ms windows avgUs : Nat)
deriving DecidableEq

/-- The event name carried by a log line. -/
def LogLine.name : LogLine → String
  | .neverRan n => n
  | .stats n _ _ _ => n

/-- `Stopwatch::print` from src/lib.rs: a stopwatch with no windows logs a
"never ran" line and performs no division; otherwise it logs the total in
ms, the window count and the average in us, dividing by
`number_of_windows` only on that branch. -/
def Stopwatch.print (sw : Stopwatch) (name : String) (tps : Nat) :
    Except ArithError LogLine :=
  if sw.number_of_windows = 0 then .ok (.neverRan name)
  else
    tsc.to_ms sw.total_time tps >>= fun ms =>
    u64div sw.total_time sw.number_of_windows >>= fun avg =>
    tsc.to_us avg tps >>= fun avgUs =>
    .ok (.stats name ms sw.number_of_windows avgUs)

/-- `TimerSet` from src/lib.rs. The `HashMap` behind the mutex is modelled
as an association list with distinct keys; its order is immaterial to
lookups and is sorted away by `print`. -/
structure TimerSet where
  ticks_per_second : Nat
  timers : List (String × Stopwatch)

/-- A fresh `TimerSet`: empty map, calibration constant measured from the
environment (here a parameter). -/
def TimerSet.new (tps : Nat) : TimerSet :=
  { ticks_per_second := tps, timers := [] }

/-- Key lookup in the timers map (`HashMap` lookup). -/
def lookupSW (name : String) : List (String × Stopwatch) → Option Stopwatch
  | [] => none
  | p :: l => if p.1 = name then some p.2 else lookupSW name l

/-- The map update inside `TimerSet::time`: insert a fresh stopwatch if the
name is absent, then bump the named stopwatch by the elapsed delta. -/
def recordSample (name : String) (delta : Nat)
    (l : List (String × Stopwatch)) : List (String × Stopwatch) :=
  let l' := if lookupSW name l = none then l ++ [(name, Stopwatch.new)] else l
  l'.map fun p => if p.1 = name then (p.1, p.2.record delta) else p

/-- One `TimerSet::time` invocation whose closure returned normally: the
event name and the two `tsc::read()` timestamps around the closure. -/
structure Call where
  name : String
  t0 : Nat
  t1 : Nat
deriving DecidableEq

/-- The wrapped tick delta `now - then` of a call. -/
def Call.delta (c : Call) : Nat :=
  u64sub c.t1 c.t0

/-- `TimerSet::time` (success path): record the elapsed delta under the
call's name; the calibration constant is untouched. -/
def TimerSet.time (ts : TimerSet) (c : Call) : TimerSet :=
  { ticks_per_second := ts.ticks_per_second,
    timers := recordSample c.name c.delta ts.timers }

/-- `TimerSet::time` with a possibly failing closure: the timer updates sit
after the closure call, so a failure propagates as-is and leaves the
registry untouched, while a normal return records the sample. -/
def TimerSet.timeRun {E A : Type} (ts : TimerSet) (name : String)
    (t0 t1 : Nat) (work : Except E A) : Except E A × TimerSet :=
  match work with
  | .error e => (.error e, ts)
  | .ok a => (.ok a, ts.time { name := name, t0 := t0, t1 := t1 })

/-- A sequence of successful `time` calls applied in order. -/
def applyTrace (trace : List Call) (ts : TimerSet) : TimerSet :=
  trace.foldl TimerSet.time ts

/-- `clone` from src/lib.rs (the snapshot operation): a deep copy of the
calibration constant and of the whole timers map. -/
def cloneSnapshot (ts : TimerSet) : TimerSet :=
  { ticks_per_second := ts.ticks_per_second, timers := ts.timers }

/-- The comparator of `TimerSet::print`: order entries by name
(`k1.cmp(k2)`, lexicographic on the string). -/
def nameLE (p q : String × Stopwatch) : Prop :=
  p.1 ≤ q.1

instance : DecidableRel nameLE := fun p q =>
  inferInstanceAs (Decidable (p.1 ≤ q.1))

instance : IsTotal (String × Stopwatch) nameLE :=
  ⟨fun p q => le_total p.1 q.1⟩

instance : IsTrans (String × Stopwatch) nameLE :=
  ⟨fun _ _ _ h1 h2 => le_trans h1 h2⟩

/-- The sorted entry list built by `TimerSet::print`. -/
def sortByName (l : List (String × Stopwatch)) : List (String × Stopwatch) :=
  List.insertionSort nameLE l

/-- The print loop of `TimerSet::print`: print each entry in order. -/
def printLines (tps : Nat) : List (String × Stopwatch) →
    Except ArithError (List LogLine)
  | [] => .ok []
  | p :: rest =>
    p.2.print p.1 tps >>= fun line =>
    printLines tps rest >>= fun lines =>
    .ok (line :: lines)

/-- `TimerSet::print` from src/lib.rs: collect the entries, sort them by
name, print each one. -/
def TimerSet.print (ts : TimerSet) : Except ArithError (List LogLine) :=
  printLines ts.ticks_per_second (sortByName ts.timers)

/-- The calls of a trace recorded under a given name. -/
def matching (name : String) (trace : List Call) : List Call :=
  trace.filter fun c => c.name == name

/-- Folding a sequence of recorded samples into a stopwatch. -/
def foldRecord (sw : Stopwatch) (cs : List Call) : Stopwatch :=
  cs.foldl (fun s c => s.record c.delta) sw

theorem lookupSW_append_new (name name' : String) :
    ∀ l, lookupSW name (l ++ [(name', Stopwatch.new)]) =
      ((lookupSW name l).or
        (if name' = name then some Stopwatch.new else none))
  | [] => by simp [lookupSW]
  | p :: l => by
    by_cases h : p.1 = name
    · simp [lookupSW, h]
    · simp [lookupSW, h, lookupSW_append_new name name' l]

theorem lookupSW_map_record (name name' : String) (d : Nat)
    (l : List (String × Stopwatch)) :
    lookupSW name
        (l.map fun p => if p.1 = name' then (p.1, p.2.record d) else p) =
      (lookupSW name l).map
        (fun sw => if name' = name then sw.record d else sw) := by
  induction l with
  | nil => rfl
  | cons p l ih =>
    by_cases h1 : p.1 = name' <;> by_cases h2 : p.1 = name
    · have hnn : name' = name := h1 ▸ h2
      simp [lookupSW, h1, h2, hnn]
    · have hnn : ¬ name' = name := fun he => h2 (h1.trans he)
      simp [lookupSW, h1, h2, hnn, ih]
    · have hnn : ¬ name' = name := fun he => h1 (h2.trans he.symm)
      have hnn' : ¬ name = name' := fun he => hnn he.symm
      simp [lookupSW, h1, h2, hnn, hnn', ih]
    · simp [lookupSW, h1, h2, ih]

/-- Effect of one `TimerSet::time` map update on a lookup. -/
theorem lookupSW_recordSample (name name' : String) (d : Nat)
    (l : List (String × Stopwatch)) :
    lookupSW name (recordSample name' d l) =
      if name' = name then
        some (((lookupSW name l).getD Stopwatch.new).record d)
      else lookupSW name l := by
  unfold recordSample
  by_cases habs : lookupSW name' l = none
  · rw [if_pos habs, lookupSW_map_record, lookupSW_append_new]
    by_cases hnn : name' = name
    · subst hnn
      rw [habs]
      simp
    · simp [hnn]
  · rw [if_neg habs, lookupSW_map_record]
    by_cases hnn : name' = name
    · subst hnn
      rcases Option.ne_none_iff_exists'.mp habs with ⟨sw, hsw⟩
      simp [hsw]
    · simp [hnn]

/-- Lookup after a trace of successful `time` calls: the matching calls are
folded into the stopwatch found at the start (or into a fresh one). -/
theorem lookupSW_applyTrace (name : String) :
    ∀ (trace : List Call) (ts : TimerSet),
      lookupSW name (applyTrace trace ts).timers =
        (match lookupSW name ts.timers with
         | some sw => some (foldRecord sw (matching name trace))
         | none =>
           if matching name trace = [] then none
           else some (foldRecord Stopwatch.new (matching name trace)))
  | [], ts => by
    cases h : lookupSW name ts.timers <;> simp [applyTrace, matching, foldRecord, h]
  | c :: tr, ts => by
    have hstep : applyTrace (c :: tr) ts = applyTrace tr (ts.time c) := rfl
    rw [hstep, lookupSW_applyTrace name tr (ts.time c)]
    have htimers : (ts.time c).timers = recordSample c.name c.delta ts.timers := rfl
    rw [htimers, lookupSW_recordSample]
    by_cases hname : c.name = name
    · have hm : matching name (c :: tr) = c :: matching name tr := by
        simp [matching, List.filter_cons, hname]
      rw [if_pos hname, hm]
      cases h : lookupSW name ts.timers
      · simp [foldRecord]
      · simp [foldRecord]
    · have hm : matching name (c :: tr) = matching name tr := by
        simp [matching, List.filter_cons, hname]
      rw [if_neg hname, hm]

/-- Closed form of a nonempty fold of recorded samples: wrapped sums. -/
theorem foldRecord_eq :
    ∀ (cs : List Call) (sw : Stopwatch), cs ≠ [] →
      foldRecord sw cs =
        { total_time := (sw.total_time + (cs.map Call.delta).sum) % U64,
          number_of_windows := (sw.number_of_windows + cs.length) % U64 }
  | [], _, h => absurd rfl h
  | [c], sw, _ => by
    simp [foldRecord, Stopwatch.record]
  | c :: c' :: cs, sw, _ => by
    have ih := foldRecord_eq (c' :: cs) (sw.record c.delta) (by simp)
    have hfold : foldRecord sw (c :: c' :: cs) =
        foldRecord (sw.record c.delta) (c' :: cs) := rfl
    rw [hfold, ih]
    simp only [Stopwatch.record, List.map_cons, List.sum_cons, List.length_cons,
      Stopwatch.mk.injEq]
    constructor
    · rw [Nat.mod_add_mod]
      ring_nf
    · rw [Nat.mod_add_mod]
      ring_nf

/-- C3: after any trace of successful `time` calls from a fresh registry,
the stopwatch under a name holds exactly the number of matching calls and
the sum of their clock deltas (end minus start timestamp), provided the
timestamps are in-range u64 reads and the totals do not exceed u64. -/
theorem time_accumulates (tps : Nat) (trace : List Call) (name : String)
    (hb : ∀ c ∈ trace, c.t0 ≤ c.t1 ∧ c.t1 < U64)
    (hN : (matching name trace).length < U64)
    (hS : ((matching name trace).map (fun c => c.t1 - c.t0)).sum < U64) :
    lookupSW name (applyTrace trace (TimerSet.new tps)).timers =
      (if (matching name trace).length = 0 then none
       else some
         { total_time := ((matching name trace).map (fun c => c.t1 - c.t0)).sum,
           number_of_windows := (matching name trace).length }) := by
  rw [lookupSW_applyTrace]
  have hnew : lookupSW name (TimerSet.new tps).timers = none := rfl
  rw [hnew]
  have hdelta : (matching name trace).map Call.delta =
      (matching name trace).map (fun c => c.t1 - c.t0) := by
    apply List.map_congr_left
    intro c hc
    have hmem : c ∈ trace := List.mem_of_mem_filter hc
    rcases hb c hmem with ⟨h01, h1⟩
    have h2 : c.t1 + U64 - c.t0 = U64 + (c.t1 - c.t0) := by omega
    have h3 : c.t1 - c.t0 < U64 := by omega
    simp [Call.delta, u64sub, h2, Nat.add_mod_left, Nat.mod_eq_of_lt h3]
  by_cases hm : matching name trace = []
  · simp [hm]
  · rw [if_neg hm, foldRecord_eq _ _ hm, if_neg (by simp [hm])]
    rw [hdelta]
    simp [Stopwatch.new, Nat.mod_eq_of_lt hS, Nat.mod_eq_of_lt hN]

/-- C3 witness: three calls, two of them named "a", with deltas 5 and 3. -/
theorem time_accumulates_witness :
    lookupSW "a" (applyTrace
        [{ name := "a", t0 := 0, t1 := 5 },
         { name := "b", t0 := 5, t1 := 7 },
         { name := "a", t0 := 7, t1 := 10 }] (TimerSet.new 17)).timers =
      some { total_time := 8, number_of_windows := 2 } := by
  have h := time_accumulates 17
    [{ name := "a", t0 := 0, t1 := 5 },
     { name := "b", t0 := 5, t1 := 7 },
     { name := "a", t0 := 7, t1 := 10 }] "a"
    (by decide) (by decide) (by decide)
  rw [h]
  decide

/-- C4: from a fresh registry, along any feasible trace (fewer than `2^64`
calls), a fresh stopwatch is zero in both fields, each recording step bumps
the window count together with the total, and every stored stopwatch
satisfies `number_of_windows = 0 → total_time = 0`. -/
theorem stopwatch_invariant (tps : Nat) (trace : List Call) (name : String)
    (sw : Stopwatch) (hlen : trace.length < U64)
    (h : lookupSW name (applyTrace trace (TimerSet.new tps)).timers = some sw) :
    (Stopwatch.new.total_time = 0 ∧ Stopwatch.new.number_of_windows = 0) ∧
    (∀ (s : Stopwatch) (d : Nat),
      (s.record d).total_time = (s.total_time + d) % U64 ∧
      (s.record d).number_of_windows = (s.number_of_windows + 1) % U64) ∧
    (sw.number_of_windows = 0 → sw.total_time = 0) := by
  refine ⟨⟨rfl, rfl⟩, fun s d => ⟨rfl, rfl⟩, ?_⟩
  rw [lookupSW_applyTrace] at h
  have hnew : lookupSW name (TimerSet.new tps).timers = none := rfl
  rw [hnew] at h
  by_cases hm : matching name trace = []
  · simp [hm] at h
  · rw [if_neg hm, foldRecord_eq _ _ hm] at h
    have hsw := (Option.some.inj h).symm
    have hlenm : (matching name trace).length ≤ trace.length :=
      List.length_filter_le _ _
    have hpos : 0 < (matching name trace).length :=
      List.length_pos.mpr hm
    intro h0
    rw [hsw] at h0
    simp only [Stopwatch.new, Nat.zero_add] at h0
    rw [Nat.mod_eq_of_lt (by omega)] at h0
    omega

/-- C4 witness: a single call named "a" with delta 5. -/
theorem stopwatch_invariant_witness :
    (Stopwatch.new.total_time = 0 ∧ Stopwatch.new.number_of_windows = 0) ∧
    (∀ (s : Stopwatch) (d : Nat),
      (s.record d).total_time = (s.total_time + d) % U64 ∧
      (s.record d).number_of_windows = (s.number_of_windows + 1) % U64) ∧
    ((Stopwatch.mk 5 1).number_of_windows = 0 →
      (Stopwatch.mk 5 1).total_time = 0) :=
  stopwatch_invariant 17 [{ name := "a", t0 := 0, t1 := 5 }] "a"
    (Stopwatch.mk 5 1) (by decide) (by decide)

theorem exceptBind_ok {E A B : Type} (a : A) (f : A → Except E B) :
    (Except.ok a >>= f) = f a := rfl

theorem exceptBind_error {E A B : Type} (e : E) (f : A → Except E B) :
    ((Except.error e : Except E A) >>= f) = .error e := rfl

theorem to_ns_ok (dt tps : Nat) (h : tps ≠ 0) :
    tsc.to_ns dt tps = .ok ((dt * 1000000000) % U64 / tps) := by
  simp [tsc.to_ns, u64div, h]

theorem to_us_ok (dt tps : Nat) (h : tps ≠ 0) :
    tsc.to_us dt tps = .ok ((dt * 1000000000) % U64 / tps / 1000) := by
  rw [tsc.to_us, to_ns_ok dt tps h]
  rfl

theorem to_ms_ok (dt tps : Nat) (h : tps ≠ 0) :
    tsc.to_ms dt tps = .ok ((dt * 1000000000) % U64 / tps / 1000 / 1009) := by
  rw [tsc.to_ms, to_us_ok dt tps h]
  rfl

/-- C5: a stopwatch with zero windows renders the "never ran" line, and
whenever the calibration constant is nonzero the render always succeeds:
the division by `number_of_windows` is reached only on the branch where it
is nonzero, so rendering never divides by zero. -/
theorem print_never_divides_by_zero (sw : Stopwatch) (name : String)
    (tps : Nat) :
    (sw.number_of_windows = 0 → sw.print name tps = .ok (.neverRan name)) ∧
    (tps ≠ 0 → ∃ line, sw.print name tps = .ok line) := by
  constructor
  · intro h
    simp [Stopwatch.print, h]
  · intro htps
    by_cases h : sw.number_of_windows = 0
    · exact ⟨.neverRan name, by simp [Stopwatch.print, h]⟩
    · refine ⟨.stats name ((sw.total_time * 1000000000) % U64 / tps / 1000 / 1009)
        sw.number_of_windows
        ((sw.total_time / sw.number_of_windows * 1000000000) % U64 / tps / 1000),
        ?_⟩
      rw [Stopwatch.print, if_neg h, to_ms_ok _ _ htps, exceptBind_ok]
      have hdiv : u64div sw.total_time sw.number_of_windows =
          .ok (sw.total_time / sw.number_of_windows) := by
        simp [u64div, h]
      rw [hdiv, exceptBind_ok, to_us_ok _ _ htps, exceptBind_ok]

/-- C5 witness: an idle stopwatch renders "never ran"; a used one with a
nonzero calibration constant renders successfully. -/
theorem print_never_divides_by_zero_witness :
    (Stopwatch.mk 7 0).print "a" 10 = .ok (.neverRan "a") ∧
    ∃ line, (Stopwatch.mk 7 3).print "a" 10 = .ok line :=
  ⟨(print_never_divides_by_zero (Stopwatch.mk 7 0) "a" 10).1 rfl,
   (print_never_divides_by_zero (Stopwatch.mk 7 3) "a" 10).2 (by decide)⟩

/-- The world of the original registry and a snapshot: `time` on one
component never touches the other (there is no sharing after the deep
copy). -/
def timeOrig (w : TimerSet × TimerSet) (c : Call) : TimerSet × TimerSet :=
  (w.1.time c, w.2)

/-- `time` applied to the snapshot component only. -/
def timeSnap (w : TimerSet × TimerSet) (c : Call) : TimerSet × TimerSet :=
  (w.1, w.2.time c)

theorem foldl_timeOrig_snd :
    ∀ (t : List Call) (w : TimerSet × TimerSet),
      (t.foldl timeOrig w).2 = w.2
  | [], _ => rfl
  | c :: t, w => foldl_timeOrig_snd t (timeOrig w c)

theorem foldl_timeSnap_fst :
    ∀ (t : List Call) (w : TimerSet × TimerSet),
      (t.foldl timeSnap w).1 = w.1
  | [], _ => rfl
  | c :: t, w => foldl_timeSnap_fst t (timeSnap w c)

/-- C7: `clone` takes a deep, independent snapshot: it copies the
calibration constant and every stopwatch, any later `time` calls on the
original leave the snapshot untouched, and `time` calls on the snapshot
leave the original untouched. -/
theorem clone_snapshot_independent (ts : TimerSet) (t1 t2 : List Call) :
    (t1.foldl timeOrig (ts, cloneSnapshot ts)).2 = cloneSnapshot ts ∧
    (t2.foldl timeSnap (ts, cloneSnapshot ts)).1 = ts ∧
    (cloneSnapshot ts).ticks_per_second = ts.ticks_per_second ∧
    ∀ name, lookupSW name (cloneSnapshot ts).timers =
      lookupSW name ts.timers :=
  ⟨foldl_timeOrig_snd t1 _, foldl_timeSnap_fst t2 _, rfl, fun _ => rfl⟩

/-- C8: when the timed closure fails, `time` propagates the failure as-is
and leaves the registry untouched (the updates sit after the closure call);
when the closure returns, the sample is recorded. -/
theorem time_fail_discards {E A : Type} (ts : TimerSet) (name : String)
    (t0 t1 : Nat) (e : E) :
    ts.timeRun name t0 t1 (Except.error e : Except E A) = (.error e, ts) ∧
    (∀ name', lookupSW name'
        (ts.timeRun name t0 t1 (Except.error e : Except E A)).2.timers =
      lookupSW name' ts.timers) ∧
    ∀ a : A, ts.timeRun name t0 t1 (Except.ok a : Except E A) =
      (.ok a, ts.time { name := name, t0 := t0, t1 := t1 }) :=
  ⟨rfl, fun _ => rfl, fun _ => rfl⟩

/-- Strict name order on map entries. -/
def nameLT (p q : String × Stopwatch) : Prop :=
  p.1 < q.1

instance : IsAntisymm (String × Stopwatch) nameLT :=
  ⟨fun _ _ h1 h2 => absurd h1 (lt_asymm h2)⟩

/-- A successful render of a stopwatch carries the given event name. -/
theorem print_line_name (sw : Stopwatch) (name : String) (tps : Nat)
    (line : LogLine) (h : sw.print name tps = .ok line) :
    line.name = name := by
  by_cases h0 : sw.number_of_windows = 0
  · rw [Stopwatch.print, if_pos h0] at h
    cases h
    rfl
  · rw [Stopwatch.print, if_neg h0] at h
    cases hms : tsc.to_ms sw.total_time tps with
    | error e => rw [hms, exceptBind_error] at h; cases h
    | ok ms =>
      rw [hms, exceptBind_ok] at h
      cases hdiv : u64div sw.total_time sw.number_of_windows with
      | error e => rw [hdiv, exceptBind_error] at h; cases h
      | ok avg =>
        rw [hdiv, exceptBind_ok] at h
        cases hus : tsc.to_us avg tps with
        | error e => rw [hus, exceptBind_error] at h; cases h
        | ok avgUs =>
          rw [hus, exceptBind_ok] at h
          cases h
          rfl

/-- Names of a successful print run are exactly the keys, in order. -/
theorem printLines_names (tps : Nat) :
    ∀ (l : List (String × Stopwatch)) (lines : List LogLine),
      printLines tps l = .ok lines →
      lines.map LogLine.name = l.map Prod.fst
  | [], lines, h => by
    cases h
    rfl
  | p :: l, lines, h => by
    rw [printLines] at h
    cases hline : p.2.print p.1 tps with
    | error e => rw [hline, exceptBind_error] at h; cases h
    | ok line =>
      rw [hline, exceptBind_ok] at h
      cases hrest : printLines tps l with
      | error e => rw [hrest, exceptBind_error] at h; cases h
      | ok rest =>
        rw [hrest, exceptBind_ok] at h
        cases h
        have ih := printLines_names tps l rest hrest
        simp [ih, print_line_name p.2 p.1 tps line hline]

/-- With distinct keys, the sorted entry list is determined by the contents
of the map alone, not by its iteration order. -/
theorem sortByName_eq_of_perm (l₁ l₂ : List (String × Stopwatch))
    (hperm : l₁.Perm l₂) (hnd : (l₁.map Prod.fst).Nodup) :
    sortByName l₁ = sortByName l₂ := by
  have hs₁ : List.Sorted nameLE (sortByName l₁) :=
    List.sorted_insertionSort nameLE l₁
  have hs₂ : List.Sorted nameLE (sortByName l₂) :=
    List.sorted_insertionSort nameLE l₂
  have hp : (sortByName l₁).Perm (sortByName l₂) :=
    (List.perm_insertionSort nameLE l₁).trans
      (hperm.trans (List.perm_insertionSort nameLE l₂).symm)
  have hnd₁ : ((sortByName l₁).map Prod.fst).Nodup :=
    (((List.perm_insertionSort nameLE l₁).map Prod.fst).nodup_iff).mpr hnd
  have hnd₂ : ((sortByName l₂).map Prod.fst).Nodup :=
    (((List.perm_insertionSort nameLE l₂).map Prod.fst).nodup_iff).mpr
      ((hperm.map Prod.fst).nodup_iff.mp hnd)
  have hlt₁ : List.Sorted nameLT (sortByName l₁) := by
    have hne := List.pairwise_map.mp hnd₁
    exact (hs₁.and hne).imp fun h => lt_of_le_of_ne h.1 h.2
  have hlt₂ : List.Sorted nameLT (sortByName l₂) := by
    have hne := List.pairwise_map.mp hnd₂
    exact (hs₂.and hne).imp fun h => lt_of_le_of_ne h.1 h.2
  exact List.eq_of_perm_of_sorted hp hlt₁ hlt₂

/-- C6: `print` emits one line per event, ordered lexicographically by
event name; two registries holding the same entries in different map orders
(distinct names) print identically. -/
theorem print_sorted (tps : Nat) (l₁ l₂ : List (String × Stopwatch))
    (hperm : l₁.Perm l₂) (hnd : (l₁.map Prod.fst).Nodup) :
    TimerSet.print (TimerSet.mk tps l₁) =
      TimerSet.print (TimerSet.mk tps l₂) ∧
    ∀ lines, TimerSet.print (TimerSet.mk tps l₁) = .ok lines →
      List.Sorted (· ≤ ·) (lines.map LogLine.name) := by
  constructor
  · rw [TimerSet.print, TimerSet.print]
    rw [show (TimerSet.mk tps l₁).timers = l₁ from rfl]
    rw [show (TimerSet.mk tps l₂).timers = l₂ from rfl]
    rw [sortByName_eq_of_perm l₁ l₂ hperm hnd]
  · intro lines hok
    have hnames : lines.map LogLine.name = (sortByName l₁).map Prod.fst :=
      printLines_names tps (sortByName l₁) lines hok
    rw [hnames]
    exact List.pairwise_map.mpr (List.sorted_insertionSort nameLE l₁)

/-- C6 witness: inserting "zebra" before "alpha" still prints "alpha"
first, identically to the reversed insertion order. -/
theorem print_sorted_witness :
    TimerSet.print (TimerSet.mk 1
        [("zebra", Stopwatch.mk 1 1), ("alpha", Stopwatch.mk 2 1)]) =
      TimerSet.print (TimerSet.mk 1
        [("alpha", Stopwatch.mk 2 1), ("zebra", Stopwatch.mk 1 1)]) ∧
    ∀ lines, TimerSet.print (TimerSet.mk 1
        [("zebra", Stopwatch.mk 1 1), ("alpha", Stopwatch.mk 2 1)]) =
        .ok lines →
      List.Sorted (· ≤ ·) (lines.map LogLine.name) :=
  print_sorted 1
    [("zebra", Stopwatch.mk 1 1), ("alpha", Stopwatch.mk 2 1)]
    [("alpha", Stopwatch.mk 2 1), ("zebra", Stopwatch.mk 1 1)]
    (List.Perm.swap ("alpha", Stopwatch.mk 2 1) ("zebra", Stopwatch.mk 1 1) [])
    (by decide)

end StopwatchRs
